import Mathlib

/-!
Shallow embedding of the search API of `postgres-server`
(`internal/handler/query.go`): the term tokenizer `prepareSearchTerms`,
the allow-list validation, the dynamic SQL query builder and the
response stage of the two query-handler variants (the simple variant at
the top of the file and the ranking variant below it, which the design
notes designate as authoritative).

Strings are modelled as lists of Unicode code points (`List Nat`), so
that character-level operations of the Go code (`strings.ToLower`,
`strings.TrimSpace`, `strings.FieldsFunc`) become plain list functions.
-/

/-- A string, modelled as its list of Unicode code points. -/
abbrev Str := List Nat

/-- Converts a Lean string literal into the `Str` model. -/
def str (s : String) : Str := s.data.map Char.toNat

/-- The separator predicate passed to `strings.FieldsFunc` in
`prepareSearchTerms`: space, comma, semicolon, tab, newline. -/
def isSepChar (c : Nat) : Bool :=
  c == 32 || c == 44 || c == 59 || c == 9 || c == 10

/-- White space as trimmed by `strings.TrimSpace` (Latin-1 range):
tab, newline, vertical tab, form feed, carriage return, space, NEL,
non-breaking space. -/
def isSpaceChar (c : Nat) : Bool :=
  c == 9 || c == 10 || c == 11 || c == 12 || c == 13 || c == 32 ||
  c == 133 || c == 160

/-- Lowercases one character as `strings.ToLower` does on ASCII input:
code points 65..90 are shifted by 32, all others are unchanged. -/
def lowerChar (c : Nat) : Nat :=
  if 65 ≤ c ∧ c ≤ 90 then c + 32 else c

/-- The embedding of `strings.ToLower`. -/
def toLowerStr (s : Str) : Str := s.map lowerChar

/-- The embedding of `strings.TrimSpace`: drop white space from both
ends. -/
def trimStr (s : Str) : Str :=
  ((s.dropWhile isSpaceChar).reverse.dropWhile isSpaceChar).reverse

/-- Helper for `fieldsFunc`: walks the string accumulating the current
run of non-separator characters (in reverse), flushing the run each
time a separator is met and once more at the end. -/
def fieldsFuncAux (p : Nat → Bool) : Str → Str → List Str
  | [], acc => if acc = [] then [] else [acc.reverse]
  | c :: cs, acc =>
    if p c then
      if acc = [] then fieldsFuncAux p cs []
      else acc.reverse :: fieldsFuncAux p cs []
    else fieldsFuncAux p cs (c :: acc)

/-- The embedding of `strings.FieldsFunc`: split at characters
satisfying `p`, returning the maximal non-empty runs of characters not
satisfying `p`. -/
def fieldsFunc (p : Nat → Bool) (s : Str) : List Str :=
  fieldsFuncAux p s []

/-- The fixed stop-word set of `prepareSearchTerms`. -/
def stopWords : List Str :=
  [str "the", str "a", str "an", str "and", str "or", str "but",
   str "in", str "on", str "at", str "to", str "for", str "of",
   str "with", str "by", str "is", str "are", str "was", str "were",
   str "be", str "been", str "have", str "has", str "had", str "do",
   str "does", str "did", str "will", str "would", str "could",
   str "should", str "want", str "like", str "buy", str "need",
   str "please", str "give"]

/-- The local `cleaned` of `prepareSearchTerms`:
`strings.ToLower(strings.TrimSpace(queryText))`. -/
def cleanedText (queryText : Str) : Str := toLowerStr (trimStr queryText)

/-- The local `rawTerms` of `prepareSearchTerms`: `strings.FieldsFunc`
of the cleaned text on space, comma, semicolon, tab, newline. -/
def rawTerms (queryText : Str) : List Str :=
  fieldsFunc isSepChar (cleanedText queryText)

/-- The local `filtered` of `prepareSearchTerms`: raw terms that are at
least 2 characters long and are not stop words. -/
def filteredTerms (queryText : Str) : List Str :=
  (rawTerms queryText).filter
    (fun term => !(term.length < 2) && !(stopWords.contains term))

/-- The embedding of `prepareSearchTerms`: clean and split the query
text; if the filtered result is empty, fall back to the single cleaned
text. -/
def prepareSearchTerms (queryText : Str) : List Str :=
  if filteredTerms queryText = [] then [cleanedText queryText]
  else filteredTerms queryText

/-- A positional SQL argument: a string value or an integer value
(the Go code passes like patterns as strings and the limit as an int). -/
inductive Arg
  | s (v : Str)
  | i (v : Int)
deriving DecidableEq

/-- The incoming JSON of the ranking-variant `QueryRequest`. -/
structure QueryRequest where
  model : Str
  fields : List Str
  queryText : Str
  maxResults : Int
deriving DecidableEq

/-- The distinct rejection and failure cases of the two handler
variants, one constructor per `http.Error` call site. -/
inductive HandlerError
  | modelRequired
  | fieldsEmpty
  | queryTextRequired
  | modelNotFound
  | fieldNotAllowed (field : Str) (model : Str)
  | modelNotAllowedV1
  | noValidFieldsV1
  | queryTextEmptyV1
deriving DecidableEq

/-- Lookup of a model in the process-wide allow-list, modelled as an
association list (the Go code indexes a map with unique keys). -/
def lookupAllowed : List (Str × List Str) → Str → Option (List Str)
  | [], _ => none
  | (m, cols) :: rest, key =>
    if m = key then some cols else lookupAllowed rest key

/-- The ranking-variant field validation loop: return the first
requested field that is not in the allowed set, if any. -/
def findDisallowed (allowedFields : List Str) : List Str → Option Str
  | [] => none
  | f :: rest =>
    if allowedFields.contains f then findDisallowed allowedFields rest
    else some f

/-- The `maxResults` clamp shared by both variants: out-of-range values
(including the absent-field zero value) fall back to the default 10. -/
def clampMaxResults (n : Int) : Int :=
  if n ≤ 0 ∨ 100 < n then 10 else n

/-- Helper of `natStr` with explicit fuel: peel decimal digits from
the right. -/
def natStrCore : Nat → Nat → Str → Str
  | 0, _, acc => acc
  | fuel + 1, n, acc =>
    let d := 48 + n % 10
    if n / 10 = 0 then d :: acc else natStrCore fuel (n / 10) (d :: acc)

/-- Decimal rendering of a natural number, as `fmt.Sprintf` with the
integer verb produces inside the built SQL text. -/
def natStr (n : Nat) : Str := natStrCore (n + 1) n []

/-- The embedding of `strings.Join`. -/
def joinStr (sep : Str) : List Str → Str
  | [] => []
  | [x] => x
  | x :: xs => x ++ sep ++ joinStr sep xs

/-- The fixed search columns of the ranking variant. -/
def searchCols : List Str := [str "name", str "category"]

/-- The inner loop of the ranking-variant WHERE construction: one
`col ILIKE $idx` part per search column, binding the like pattern each
time and advancing the argument index. Returns the parts, the appended
arguments and the next argument index. -/
def colParts : List Str → Nat → Str → List Str × List Arg × Nat
  | [], argIdx, _ => ([], [], argIdx)
  | col :: rest, argIdx, likePattern =>
    let part := col ++ str " ILIKE $" ++ natStr argIdx
    let (ps, as, idx) := colParts rest (argIdx + 1) likePattern
    (part :: ps, Arg.s likePattern :: as, idx)

/-- The outer loop of the ranking-variant WHERE construction: one
parenthesised OR-group per search term, with pattern `%term%`. -/
def termClauses : List Str → Nat → List Str × List Arg × Nat
  | [], argIdx => ([], [], argIdx)
  | t :: rest, argIdx =>
    let likePattern := str "%" ++ t ++ str "%"
    let (parts, as1, idx1) := colParts searchCols argIdx likePattern
    let clause := str "(" ++ joinStr (str " OR ") parts ++ str ")"
    let (cls, as2, idx2) := termClauses rest idx1
    (clause :: cls, as1 ++ as2, idx2)

/-- The WHERE text: the AND-join of the clauses, or the `1=1` fallback
when there are none. -/
def whereClauseOf (cls : List Str) : Str :=
  if cls = [] then str "1=1" else joinStr (str " AND ") cls

/-- The ORDER BY text of the ranking variant, with the two placeholder
indices for the exact pattern interpolated. -/
def orderClauseOf (argIdx : Nat) : Str :=
  str "\n            CASE\n                WHEN LOWER(name) LIKE LOWER($" ++
  natStr argIdx ++
  str ") THEN 1\n                WHEN LOWER(category) LIKE LOWER($" ++
  natStr (argIdx + 1) ++
  str ") THEN 2\n                ELSE 3\n            END, name ASC\n        "

/-- The final SQL text of the ranking variant, assembled exactly as the
`fmt.Sprintf` format string does. -/
def sqlTextOf (selectCols model whereClause orderClause : Str)
    (limitIdx : Nat) : Str :=
  str "\n            SELECT " ++ selectCols ++
  str "\n              FROM " ++ model ++
  str "\n             WHERE " ++ whereClause ++
  str "\n          ORDER BY " ++ orderClause ++
  str "\n             LIMIT $" ++ natStr limitIdx ++
  str "\n        "

/-- A built statement: the SQL text plus its positional arguments. -/
structure QueryPlan where
  sqlText : Str
  args : List Arg
deriving DecidableEq

/-- The ranking-variant handler up to (but not including) query
execution: validation, clamping, tokenization and query construction,
in the exact order of the Go code. -/
def buildPlan (allowed : List (Str × List Str)) (req : QueryRequest) :
    Except HandlerError QueryPlan :=
  if req.model = [] then .error .modelRequired
  else if req.fields = [] then .error .fieldsEmpty
  else if req.queryText = [] then .error .queryTextRequired
  else
    let maxResults := clampMaxResults req.maxResults
    match lookupAllowed allowed req.model with
    | none => .error .modelNotFound
    | some allowedFields =>
      match findDisallowed allowedFields req.fields with
      | some f => .error (.fieldNotAllowed f req.model)
      | none =>
        let selectCols := joinStr (str ", ") req.fields
        let terms := prepareSearchTerms req.queryText
        let (whereClauses, args1, argIdx1) := termClauses terms 1
        let whereClause := whereClauseOf whereClauses
        let exactPattern := str "%" ++ toLowerStr req.queryText ++ str "%"
        let orderClause := orderClauseOf argIdx1
        let args2 := args1 ++ [Arg.s exactPattern, Arg.s exactPattern]
        let limitIdx := argIdx1 + 2
        let args3 := args2 ++ [Arg.i maxResults]
        .ok ⟨sqlTextOf selectCols req.model whereClause orderClause limitIdx,
             args3⟩

/-- A materialized row: column name to dynamically typed value. -/
inductive Val
  | s (v : Str)
  | n (v : Int)
  | b (v : Bool)
  | null
deriving DecidableEq

/-- A result record, keyed by column name. -/
abbrev Record := List (Str × Val)

/-- The outcome of handing a statement to the storage engine. -/
inductive DbResult
  | ok (rows : List Record)
  | err
deriving DecidableEq

/-- The observable response of a handler run. -/
inductive Response
  | badRequest (e : HandlerError)
  | serverError
  | okArray (results : List Record)
  | okObject (results : List Record) (count : Nat)
deriving DecidableEq

/-- The full ranking-variant handler against a storage oracle `db`
mapping a statement and its arguments to a result. -/
def handleQuery (allowed : List (Str × List Str)) (req : QueryRequest)
    (db : Str → List Arg → DbResult) : Response :=
  match buildPlan allowed req with
  | .error e => .badRequest e
  | .ok plan =>
    match db plan.sqlText plan.args with
    | .err => .serverError
    | .ok rows => .okArray rows

/-- The simple-variant field scan: every requested field is emitted
once per allowed column it equals (a filter when the allowed columns
are distinct); invalid fields are silently dropped. -/
def fieldsToSearchV1 (cols : List Str) : List Str → List Str
  | [] => []
  | f :: rest =>
    (cols.filter (fun ac => f = ac)).map (fun _ => f) ++
    fieldsToSearchV1 cols rest

/-- The simple-variant handler up to query execution: model lookup,
field intersection, emptiness checks, clamp and query construction. -/
def buildPlanV1 (allowed : List (Str × List Str)) (req : QueryRequest) :
    Except HandlerError QueryPlan :=
  match lookupAllowed allowed req.model with
  | none => .error .modelNotAllowedV1
  | some cols =>
    let fieldsToSearch := fieldsToSearchV1 cols req.fields
    if fieldsToSearch = [] then .error .noValidFieldsV1
    else if req.queryText.length < 1 then .error .queryTextEmptyV1
    else
      let maxResults := clampMaxResults req.maxResults
      let clauses := fieldsToSearch.map
        (fun f => f ++ str " ILIKE '%' || $1 || '%'")
      let whereStr := joinStr (str " OR ") clauses
      .ok ⟨str "SELECT * FROM " ++ req.model ++ str " WHERE " ++ whereStr ++
             str " LIMIT $2",
           [Arg.s req.queryText, Arg.i maxResults]⟩

/-- The full simple-variant handler: on success it writes the object
body with the results and their count. -/
def handleQueryV1 (allowed : List (Str × List Str)) (req : QueryRequest)
    (db : Str → List Arg → DbResult) : Response :=
  match buildPlanV1 allowed req with
  | .error e => .badRequest e
  | .ok plan =>
    match db plan.sqlText plan.args with
    | .err => .serverError
    | .ok rows => .okObject rows rows.length

/-- A row of the searched table restricted to the two text-bearing
columns the ranking variant reads: `name` and `category`. -/
structure Row where
  name : Str
  category : Str
deriving DecidableEq

/-- Tests whether the first string is a prefix of the second. -/
def isPrefixOfStr : Str → Str → Bool
  | [], _ => true
  | _ :: _, [] => false
  | a :: as, b :: bs => a == b && isPrefixOfStr as bs

/-- Substring containment, the semantics of a SQL `LIKE` comparison
against a pattern of the shape `%text%`. -/
def isSubstr (needle : Str) : Str → Bool
  | [] => isPrefixOfStr needle []
  | c :: cs => isPrefixOfStr needle (c :: cs) || isSubstr needle cs

/-- The rank the generated ORDER BY CASE expression assigns to a row:
1 when the lowercased `name` contains the lowercased query text, else 2
when the lowercased `category` does, else 3. -/
def rankRow (queryText : Str) (r : Row) : Nat :=
  if isSubstr (toLowerStr queryText) (toLowerStr r.name) then 1
  else if isSubstr (toLowerStr queryText) (toLowerStr r.category) then 2
  else 3

/-- Strict lexicographic order on code-point strings, the model of the
`name ASC` tiebreak. -/
def strLt : Str → Str → Bool
  | [], [] => false
  | [], _ :: _ => true
  | _ :: _, [] => false
  | a :: as, b :: bs => if a < b then true else if a = b then strLt as bs else false

/-- Reflexive lexicographic order on code-point strings. -/
def strLe (a b : Str) : Bool := strLt a b || a == b

/-- The ordering relation denoted by the generated
`ORDER BY CASE ... END, name ASC`: earlier row has a strictly smaller
rank, or equal ranks and `name` not after. -/
def rankedBefore (queryText : Str) (r1 r2 : Row) : Bool :=
  rankRow queryText r1 < rankRow queryText r2 ||
  (rankRow queryText r1 == rankRow queryText r2 && strLe r1.name r2.name)

/-- The WHERE text the spec describes: for term number `j` (0-based)
the OR-group `(name ILIKE $(2j+1) OR category ILIKE $(2j+2))`, all
groups joined with AND. Stated from the spec wording, to be compared
with the text the code builds. -/
def specWhere (termCount : Nat) : Str :=
  joinStr (str " AND ")
    ((List.range termCount).map (fun j =>
      str "(name ILIKE $" ++ natStr (2 * j + 1) ++
      str " OR category ILIKE $" ++ natStr (2 * j + 2) ++ str ")"))

/-- The argument list the spec describes for the term clauses: the like
pattern `%term%` twice per term, in term order. Stated from the spec
wording, to be compared with the arguments the code collects. -/
def specTermArgs (terms : List Str) : List Arg :=
  terms.flatMap (fun t =>
    [Arg.s (str "%" ++ t ++ str "%"), Arg.s (str "%" ++ t ++ str "%")])

/-! ### Lemmas about the tokenizer -/

theorem mem_fieldsFuncAux (p : Nat → Bool) :
    ∀ (s acc t : Str), t ∈ fieldsFuncAux p s acc →
      ∀ c ∈ t, c ∈ s ∨ c ∈ acc := by
  intro s
  induction s with
  | nil =>
    intro acc t ht c hc
    simp only [fieldsFuncAux] at ht
    split at ht
    · simp at ht
    · simp only [List.mem_singleton] at ht
      subst ht
      exact Or.inr (List.mem_reverse.mp hc)
  | cons x xs ih =>
    intro acc t ht c hc
    simp only [fieldsFuncAux] at ht
    split at ht
    · split at ht
      · rcases ih [] t ht c hc with h | h
        · exact Or.inl (List.mem_cons_of_mem x h)
        · simp at h
      · rcases List.mem_cons.mp ht with h | h
        · subst h
          exact Or.inr (List.mem_reverse.mp hc)
        · rcases ih [] t h c hc with h2 | h2
          · exact Or.inl (List.mem_cons_of_mem x h2)
          · simp at h2
    · rcases ih (x :: acc) t ht c hc with h | h
      · exact Or.inl (List.mem_cons_of_mem x h)
      · rcases List.mem_cons.mp h with h2 | h2
        · exact Or.inl (h2 ▸ List.mem_cons_self x xs)
        · exact Or.inr h2

theorem mem_of_mem_rawTerms (q t : Str) (ht : t ∈ rawTerms q) :
    ∀ c ∈ t, c ∈ cleanedText q := by
  intro c hc
  rcases mem_fieldsFuncAux isSepChar (cleanedText q) [] t ht c hc with h | h
  · exact h
  · simp at h

theorem lowerChar_idem (c : Nat) : lowerChar (lowerChar c) = lowerChar c := by
  simp only [lowerChar]
  split
  · split <;> omega
  · rfl

theorem lowerChar_of_mem_cleaned (q : Str) (c : Nat)
    (hc : c ∈ cleanedText q) : lowerChar c = c := by
  simp only [cleanedText, toLowerStr, List.mem_map] at hc
  rcases hc with ⟨d, _, hd⟩
  rw [← hd, lowerChar_idem]

/-- Claim C6 — when the filtered token list is non-empty,
`prepareSearchTerms` returns exactly the filtered tokens of the
lowercased, trimmed, split input, and every returned term is lowercase,
has at least 2 characters and is not a stop word. -/
theorem prepareSearchTerms_filtered (q : Str) (h : filteredTerms q ≠ []) :
    prepareSearchTerms q = filteredTerms q ∧
    ∀ t ∈ prepareSearchTerms q,
      toLowerStr t = t ∧ 2 ≤ t.length ∧ stopWords.contains t = false := by
  have heq : prepareSearchTerms q = filteredTerms q := by
    simp only [prepareSearchTerms, if_neg h]
  refine ⟨heq, ?_⟩
  intro t ht
  rw [heq] at ht
  simp only [filteredTerms, List.mem_filter, Bool.and_eq_true,
    Bool.not_eq_true', decide_eq_false_iff_not, Nat.not_lt] at ht
  obtain ⟨hraw, hlen, hstop⟩ := ht
  refine ⟨?_, hlen, hstop⟩
  have hfix : ∀ c ∈ t, lowerChar c = c := fun c hc =>
    lowerChar_of_mem_cleaned q c (mem_of_mem_rawTerms q t hraw c hc)
  calc toLowerStr t = t.map id := List.map_congr_left hfix
    _ = t := List.map_id t

/-- Witness for C6 at a concrete input with surviving tokens. -/
theorem prepareSearchTerms_filtered_witness :
    filteredTerms (str "I want to buy a Laptop, please") ≠ [] ∧
    prepareSearchTerms (str "I want to buy a Laptop, please") =
      [str "laptop"] := by
  have h := prepareSearchTerms_filtered (str "I want to buy a Laptop, please")
    (by decide)
  exact ⟨by decide, by rw [h.1]; decide⟩

theorem prepareSearchTerms_nonempty (q : Str) : prepareSearchTerms q ≠ [] := by
  simp only [prepareSearchTerms]
  split <;> simp_all

/-- Claim C3 — the tokenizer never returns an empty sequence, and when
filtering leaves nothing it falls back to the single cleaned text. -/
theorem prepareSearchTerms_ne_nil (q : Str) :
    prepareSearchTerms q ≠ [] ∧
    (filteredTerms q = [] → prepareSearchTerms q = [cleanedText q]) := by
  refine ⟨prepareSearchTerms_nonempty q, fun h => ?_⟩
  simp only [prepareSearchTerms, if_pos h]

/-- Witness for C3: the empty query and an all-stop-word query both
fall back to the single cleaned text. -/
theorem prepareSearchTerms_ne_nil_witness :
    prepareSearchTerms (str "") = [str ""] ∧
    prepareSearchTerms (str "the a of") = [str "the a of"] := by
  have h1 := (prepareSearchTerms_ne_nil (str "")).2 (by decide)
  have h2 := (prepareSearchTerms_ne_nil (str "the a of")).2 (by decide)
  exact ⟨by rw [h1]; decide, by rw [h2]; decide⟩

/-! ### Lemmas about the ranking-variant query builder -/

theorem colParts_searchCols (i : Nat) (p : Str) :
    colParts searchCols i p =
      ([str "name" ++ str " ILIKE $" ++ natStr i,
        str "category" ++ str " ILIKE $" ++ natStr (i + 1)],
       [Arg.s p, Arg.s p], i + 2) := rfl

theorem clause_merge (i : Nat) :
    str "(" ++ joinStr (str " OR ")
      [str "name" ++ str " ILIKE $" ++ natStr i,
       str "category" ++ str " ILIKE $" ++ natStr (i + 1)] ++ str ")" =
    str "(name ILIKE $" ++ natStr i ++ str " OR category ILIKE $" ++
      natStr (i + 1) ++ str ")" := by
  simp [joinStr, str, List.append_assoc]

theorem termClauses_eq (ts : List Str) : ∀ i : Nat,
    termClauses ts i =
      ((List.range ts.length).map (fun j =>
         str "(name ILIKE $" ++ natStr (i + 2 * j) ++
         str " OR category ILIKE $" ++ natStr (i + 2 * j + 1) ++ str ")"),
       specTermArgs ts, i + 2 * ts.length) := by
  induction ts with
  | nil =>
    intro i
    simp [termClauses, specTermArgs]
  | cons t rest ih =>
    intro i
    simp only [termClauses, colParts_searchCols, ih (i + 2), List.length_cons,
      List.range_succ_eq_map, List.map_cons, List.map_map, specTermArgs,
      List.flatMap_cons, Prod.mk.injEq]
    refine ⟨?_, ?_, by omega⟩
    · rw [clause_merge]
      simp only [Nat.mul_zero, Nat.add_zero, List.cons.injEq, true_and]
      refine List.map_congr_left fun j _ => ?_
      have e1 : i + 2 * Nat.succ j = i + 2 + 2 * j := by omega
      rw [Function.comp_apply, e1]
    · simp [List.flatMap]

/-- The canonical value of a successfully built ranking-variant plan,
with `t` the number of search terms: SELECT over the comma-joined
requested fields, the WHERE conjunction over placeholders `$1..$(2t)`,
the rank ORDER BY over placeholders `$(2t+1)` and `$(2t+2)`, the LIMIT
over placeholder `$(2t+3)`, and the argument list holding the like
patterns, the exact pattern twice and the clamped limit. -/
def builtPlan (req : QueryRequest) : QueryPlan :=
  ⟨sqlTextOf (joinStr (str ", ") req.fields) req.model
     (specWhere (prepareSearchTerms req.queryText).length)
     (orderClauseOf (2 * (prepareSearchTerms req.queryText).length + 1))
     (2 * (prepareSearchTerms req.queryText).length + 3),
   specTermArgs (prepareSearchTerms req.queryText) ++
     [Arg.s (str "%" ++ toLowerStr req.queryText ++ str "%"),
      Arg.s (str "%" ++ toLowerStr req.queryText ++ str "%"),
      Arg.i (clampMaxResults req.maxResults)]⟩

theorem whereClause_map (n : Nat) (h : n ≠ 0) :
    whereClauseOf ((List.range n).map (fun j =>
      str "(name ILIKE $" ++ natStr (1 + 2 * j) ++
      str " OR category ILIKE $" ++ natStr (1 + 2 * j + 1) ++ str ")")) =
    specWhere n := by
  have hne : (List.range n).map (fun j =>
      str "(name ILIKE $" ++ natStr (1 + 2 * j) ++
      str " OR category ILIKE $" ++ natStr (1 + 2 * j + 1) ++ str ")") ≠ [] := by
    simp [List.map_eq_nil_iff, List.range_eq_nil, h]
  simp only [whereClauseOf, if_neg hne, specWhere]
  congr 1
  refine List.map_congr_left fun j _ => ?_
  have e1 : 1 + 2 * j = 2 * j + 1 := by omega
  rw [e1]

theorem buildPlan_ok (allowed : List (Str × List Str)) (req : QueryRequest)
    (cols : List Str) (hm : req.model ≠ []) (hf : req.fields ≠ [])
    (hq : req.queryText ≠ [])
    (hlook : lookupAllowed allowed req.model = some cols)
    (hval : findDisallowed cols req.fields = none) :
    buildPlan allowed req = .ok (builtPlan req) := by
  have hn : (prepareSearchTerms req.queryText).length ≠ 0 := by
    simpa [List.length_eq_zero] using prepareSearchTerms_nonempty req.queryText
  simp only [buildPlan, if_neg hm, if_neg hf, if_neg hq, hlook, hval,
    termClauses_eq (prepareSearchTerms req.queryText) 1,
    whereClause_map _ hn, builtPlan, Except.ok.injEq, QueryPlan.mk.injEq]
  constructor
  · have e1 : 1 + 2 * (prepareSearchTerms req.queryText).length =
        2 * (prepareSearchTerms req.queryText).length + 1 := by omega
    have e2 : 2 * (prepareSearchTerms req.queryText).length + 1 + 2 =
        2 * (prepareSearchTerms req.queryText).length + 3 := by omega
    rw [e1, e2]
  · simp [List.append_assoc]

theorem buildPlan_ok_inv (allowed : List (Str × List Str))
    (req : QueryRequest) (plan : QueryPlan)
    (h : buildPlan allowed req = .ok plan) :
    req.model ≠ [] ∧ req.fields ≠ [] ∧ req.queryText ≠ [] ∧
    ∃ cols, lookupAllowed allowed req.model = some cols ∧
      findDisallowed cols req.fields = none ∧ plan = builtPlan req := by
  by_cases hm : req.model = []
  · simp [buildPlan, hm] at h
  by_cases hf : req.fields = []
  · simp [buildPlan, hm, hf] at h
  by_cases hq : req.queryText = []
  · simp [buildPlan, hm, hf, hq] at h
  cases hlook : lookupAllowed allowed req.model with
  | none => simp [buildPlan, hm, hf, hq, hlook] at h
  | some cols =>
    cases hval : findDisallowed cols req.fields with
    | some f => simp [buildPlan, hm, hf, hq, hlook, hval] at h
    | none =>
      rw [buildPlan_ok allowed req cols hm hf hq hlook hval] at h
      have hp : builtPlan req = plan := by injection h
      exact ⟨hm, hf, hq, cols, rfl, hval, hp.symm⟩

theorem buildPlan_fieldNotAllowed (allowed : List (Str × List Str))
    (req : QueryRequest) (cols : List Str) (f : Str)
    (hm : req.model ≠ []) (hf : req.fields ≠ []) (hq : req.queryText ≠ [])
    (hlook : lookupAllowed allowed req.model = some cols)
    (hval : findDisallowed cols req.fields = some f) :
    buildPlan allowed req = .error (.fieldNotAllowed f req.model) := by
  simp [buildPlan, if_neg hm, if_neg hf, if_neg hq, hlook, hval]

theorem findDisallowed_of_bad (cols : List Str) :
    ∀ fs : List Str, (∃ f ∈ fs, f ∉ cols) →
      ∃ f, findDisallowed cols fs = some f ∧ f ∈ fs ∧ f ∉ cols := by
  intro fs
  induction fs with
  | nil =>
    rintro ⟨f, hf, _⟩
    simp at hf
  | cons g rest ih =>
    rintro ⟨f, hf, hbad⟩
    by_cases hg : cols.contains g = true
    · have hgmem : g ∈ cols := by
        simpa [List.contains] using List.elem_iff.mp hg
      simp only [findDisallowed, if_pos hg]
      rcases List.mem_cons.mp hf with rfl | hfr
      · exact absurd hgmem hbad
      · rcases ih ⟨f, hfr, hbad⟩ with ⟨f2, hfind, hmem, hb⟩
        exact ⟨f2, hfind, List.mem_cons_of_mem g hmem, hb⟩
    · simp only [findDisallowed, if_neg hg]
      refine ⟨g, rfl, List.mem_cons_self g rest, fun hmem => hg ?_⟩
      simpa [List.contains] using List.elem_iff.mpr hmem

theorem specTermArgs_length (ts : List Str) :
    (specTermArgs ts).length = 2 * ts.length := by
  induction ts with
  | nil => simp [specTermArgs]
  | cons t rest ih =>
    have e : specTermArgs (t :: rest) =
        Arg.s (str "%" ++ t ++ str "%") :: Arg.s (str "%" ++ t ++ str "%") ::
        specTermArgs rest := by
      simp [specTermArgs, List.flatMap_cons]
    rw [e]
    simp only [List.length_cons, ih]
    omega

theorem specTermArgs_getElem (ts : List Str) :
    ∀ j t, ts[j]? = some t →
      (specTermArgs ts)[2 * j]? =
        some (Arg.s (str "%" ++ t ++ str "%")) ∧
      (specTermArgs ts)[2 * j + 1]? =
        some (Arg.s (str "%" ++ t ++ str "%")) := by
  induction ts with
  | nil =>
    intro j t h
    simp at h
  | cons u rest ih =>
    intro j t h
    cases j with
    | zero =>
      simp only [List.getElem?_cons_zero, Option.some.injEq] at h
      subst h
      simp [specTermArgs, List.flatMap_cons]
    | succ j =>
      simp only [List.getElem?_cons_succ] at h
      have hih := ih j t h
      have e1 : 2 * (j + 1) = 2 * j + 1 + 1 := by omega
      rw [e1]
      simpa [specTermArgs, List.flatMap_cons] using hih

/-! ### Concrete fixtures used by the witnesses -/

/-- Allow-list fixture: one model with four columns. -/
def wAllowed : List (Str × List Str) :=
  [(str "items", [str "id", str "name", str "category", str "price"])]

/-- A valid two-term request (maxResults 0 exercises the clamp). -/
def wReq1 : QueryRequest :=
  { model := str "items", fields := [str "name", str "price"],
    queryText := str "laptop stand", maxResults := 0 }

/-- A valid two-term request differing from `wReq1` only in the query
text and the limit. -/
def wReq2 : QueryRequest :=
  { model := str "items", fields := [str "name", str "price"],
    queryText := str "usb cable", maxResults := 50 }

/-- A valid one-term request with the ranking example query text. -/
def wReq3 : QueryRequest :=
  { model := str "items", fields := [str "name"],
    queryText := str "laptop", maxResults := 10 }

/-- Rows in the order the generated ORDER BY denotes: two rank-1 rows
in name order, then a rank-2 row, then a rank-3 row. -/
def wRows : List Row :=
  [⟨str "Laptop Case", str "Bags"⟩,
   ⟨str "Laptop Stand", str "Desks"⟩,
   ⟨str "USB Hub", str "Laptop Accessories"⟩,
   ⟨str "Mouse Pad", str "Desks"⟩]

/-! ### The claims -/

/-- Counterexample to C1 as stated: a request whose fields contain a
disallowed entry but whose queryText is empty is rejected by the
presence check, not by a FieldNotAllowed error naming the field. -/
theorem fieldNotAllowed_counterexample :
    ((str "bogus") ∈ ([str "bogus"] : List Str) ∧
     (str "bogus") ∉ [str "id", str "name", str "category", str "price"]) ∧
    handleQuery wAllowed
      { model := str "items", fields := [str "bogus"],
        queryText := str "", maxResults := 10 }
      (fun _ _ => DbResult.ok []) =
      Response.badRequest HandlerError.queryTextRequired ∧
    Response.badRequest HandlerError.queryTextRequired ≠
      Response.badRequest
        (HandlerError.fieldNotAllowed (str "bogus") (str "items")) :=
  ⟨by decide, by rfl, by decide⟩

/-- Claim C1 (amended) — when the basic presence checks pass (model and
queryText non-empty) and the model is allow-listed, a request whose
fields contain an entry outside the allow-listed column set is rejected
with the 400 FieldNotAllowed error naming the first such field, and the
response is the same for every storage oracle (no query is executed). -/
theorem fieldNotAllowed_rejects (allowed : List (Str × List Str))
    (req : QueryRequest) (cols : List Str)
    (hm : req.model ≠ []) (hq : req.queryText ≠ [])
    (hlook : lookupAllowed allowed req.model = some cols)
    (hbad : ∃ f ∈ req.fields, f ∉ cols) :
    ∃ f ∈ req.fields, f ∉ cols ∧
      ∀ db, handleQuery allowed req db =
        Response.badRequest (HandlerError.fieldNotAllowed f req.model) := by
  rcases findDisallowed_of_bad cols req.fields hbad with ⟨f, hfind, hmem, hnotin⟩
  have hfne : req.fields ≠ [] := by
    intro h0
    rw [h0] at hmem
    simp at hmem
  refine ⟨f, hmem, hnotin, fun db => ?_⟩
  simp [handleQuery,
    buildPlan_fieldNotAllowed allowed req cols f hm hfne hq hlook hfind]

/-- Witness for the amended C1 at a concrete request mixing a valid and
an invalid field. -/
theorem fieldNotAllowed_rejects_witness :
    ∃ f ∈ [str "name", str "bogus"],
      f ∉ [str "id", str "name", str "category", str "price"] ∧
      ∀ db, handleQuery wAllowed
        { model := str "items", fields := [str "name", str "bogus"],
          queryText := str "laptop", maxResults := 10 } db =
        Response.badRequest
          (HandlerError.fieldNotAllowed f (str "items")) :=
  fieldNotAllowed_rejects wAllowed
    { model := str "items", fields := [str "name", str "bogus"],
      queryText := str "laptop", maxResults := 10 }
    [str "id", str "name", str "category", str "price"]
    (by decide) (by decide) (by rfl) (by decide)

/-- Claim C2 — the SQL text depends only on the model, the validated
field list and the number of search terms: two constructed requests
agreeing on those yield identical SQL text, so no characters of the
query text (nor the limit) reach the statement; they travel only in
the argument list. -/
theorem sqlText_independent_of_literals (allowed : List (Str × List Str))
    (r1 r2 : QueryRequest) (p1 p2 : QueryPlan)
    (h1 : buildPlan allowed r1 = .ok p1) (h2 : buildPlan allowed r2 = .ok p2)
    (hm : r1.model = r2.model) (hf : r1.fields = r2.fields)
    (ht : (prepareSearchTerms r1.queryText).length =
          (prepareSearchTerms r2.queryText).length) :
    p1.sqlText = p2.sqlText := by
  rcases buildPlan_ok_inv allowed r1 p1 h1 with ⟨_, _, _, _, _, _, e1⟩
  rcases buildPlan_ok_inv allowed r2 p2 h2 with ⟨_, _, _, _, _, _, e2⟩
  rw [e1, e2]
  simp only [builtPlan]
  rw [hm, hf, ht]

/-- Witness for C2: two requests with different query texts and limits
but equal term counts produce the same SQL text. -/
theorem sqlText_independent_witness :
    (builtPlan wReq1).sqlText = (builtPlan wReq2).sqlText :=
  sqlText_independent_of_literals wAllowed wReq1 wReq2
    (builtPlan wReq1) (builtPlan wReq2) (by rfl) (by rfl)
    (by rfl) (by rfl) (by decide)

/-- Claim C4 — the WHERE clause of the generated SQL is the AND-join
over the search terms of the OR-groups
`(name ILIKE $(2j+1) OR category ILIKE $(2j+2))`, and for every term
both placeholders bind the pattern `%term%` in the argument list. -/
theorem whereClause_conjunction (allowed : List (Str × List Str))
    (req : QueryRequest) (plan : QueryPlan)
    (h : buildPlan allowed req = .ok plan) :
    plan.sqlText = sqlTextOf (joinStr (str ", ") req.fields) req.model
      (specWhere (prepareSearchTerms req.queryText).length)
      (orderClauseOf (2 * (prepareSearchTerms req.queryText).length + 1))
      (2 * (prepareSearchTerms req.queryText).length + 3) ∧
    ∀ j t, (prepareSearchTerms req.queryText)[j]? = some t →
      plan.args[2 * j]? = some (Arg.s (str "%" ++ t ++ str "%")) ∧
      plan.args[2 * j + 1]? = some (Arg.s (str "%" ++ t ++ str "%")) := by
  rcases buildPlan_ok_inv allowed req plan h with ⟨_, _, _, _, _, _, e⟩
  subst e
  refine ⟨rfl, fun j t hjt => ?_⟩
  have hj : j < (prepareSearchTerms req.queryText).length := by
    rcases List.getElem?_eq_some.mp hjt with ⟨hlt, _⟩
    exact hlt
  have hargs := specTermArgs_getElem (prepareSearchTerms req.queryText) j t hjt
  have hlen := specTermArgs_length (prepareSearchTerms req.queryText)
  constructor
  · rw [builtPlan]
    simp only [List.getElem?_append, hlen]
    rw [if_pos (by omega)]
    exact hargs.1
  · rw [builtPlan]
    simp only [List.getElem?_append, hlen]
    rw [if_pos (by omega)]
    exact hargs.2

/-- Witness for C4 at the concrete two-term request. -/
theorem whereClause_conjunction_witness :
    (builtPlan wReq1).sqlText =
      sqlTextOf (joinStr (str ", ") wReq1.fields) wReq1.model
        (specWhere (prepareSearchTerms wReq1.queryText).length)
        (orderClauseOf (2 * (prepareSearchTerms wReq1.queryText).length + 1))
        (2 * (prepareSearchTerms wReq1.queryText).length + 3) ∧
    ∀ j t, (prepareSearchTerms wReq1.queryText)[j]? = some t →
      (builtPlan wReq1).args[2 * j]? =
        some (Arg.s (str "%" ++ t ++ str "%")) ∧
      (builtPlan wReq1).args[2 * j + 1]? =
        some (Arg.s (str "%" ++ t ++ str "%")) :=
  whereClause_conjunction wAllowed wReq1 (builtPlan wReq1) (by rfl)

/-- Claim C5 — the exact pattern `%lower(queryText)%` is bound at the
two rank placeholders `$(2t+1)` and `$(2t+2)` referenced by the ORDER
BY CASE expression, and any row sequence ordered as that clause
denotes (rank, then name ascending) has weakly increasing ranks with
equal-rank rows in name order: all name-substring matches precede all
category-substring matches, which precede everything else. -/
theorem ranking_order (allowed : List (Str × List Str)) (req : QueryRequest)
    (plan : QueryPlan) (rows : List Row)
    (h : buildPlan allowed req = .ok plan)
    (hsorted : List.Pairwise
      (fun r1 r2 => rankedBefore req.queryText r1 r2 = true) rows) :
    (plan.args[2 * (prepareSearchTerms req.queryText).length]? =
       some (Arg.s (str "%" ++ toLowerStr req.queryText ++ str "%")) ∧
     plan.args[2 * (prepareSearchTerms req.queryText).length + 1]? =
       some (Arg.s (str "%" ++ toLowerStr req.queryText ++ str "%")) ∧
     plan.sqlText = sqlTextOf (joinStr (str ", ") req.fields) req.model
       (specWhere (prepareSearchTerms req.queryText).length)
       (orderClauseOf (2 * (prepareSearchTerms req.queryText).length + 1))
       (2 * (prepareSearchTerms req.queryText).length + 3)) ∧
    ∀ i j (hi : i < rows.length) (hj : j < rows.length), i < j →
      rankRow req.queryText rows[i] ≤ rankRow req.queryText rows[j] ∧
      (rankRow req.queryText rows[i] = rankRow req.queryText rows[j] →
        strLe (rows[i]).name (rows[j]).name = true) := by
  rcases buildPlan_ok_inv allowed req plan h with ⟨_, _, _, _, _, _, e⟩
  subst e
  have hlen := specTermArgs_length (prepareSearchTerms req.queryText)
  refine ⟨⟨?_, ?_, rfl⟩, ?_⟩
  · rw [builtPlan]
    simp only [List.getElem?_append, hlen]
    rw [if_neg (by omega)]
    simp [hlen]
  · rw [builtPlan]
    simp only [List.getElem?_append, hlen]
    rw [if_neg (by omega)]
    have e1 : 2 * (prepareSearchTerms req.queryText).length + 1 -
        2 * (prepareSearchTerms req.queryText).length = 1 := by omega
    simp [hlen, e1]
  · intro i j hi hj hij
    have hrel := List.pairwise_iff_getElem.mp hsorted i j hi hj hij
    simp only [rankedBefore, Bool.or_eq_true, Bool.and_eq_true,
      decide_eq_true_eq, beq_iff_eq] at hrel
    rcases hrel with hlt | ⟨heq, hle⟩
    · exact ⟨Nat.le_of_lt hlt, fun hcontra => absurd hcontra (by omega)⟩
    · exact ⟨Nat.le_of_eq heq, fun _ => hle⟩

/-- Witness for C5 at the ranking example: query `laptop`, two rank-1
rows in name order, then a category match, then a non-match. -/
theorem ranking_order_witness :
    ((builtPlan wReq3).args[2 * (prepareSearchTerms wReq3.queryText).length]? =
       some (Arg.s (str "%" ++ toLowerStr wReq3.queryText ++ str "%")) ∧
     (builtPlan wReq3).args[2 * (prepareSearchTerms wReq3.queryText).length + 1]? =
       some (Arg.s (str "%" ++ toLowerStr wReq3.queryText ++ str "%")) ∧
     (builtPlan wReq3).sqlText =
       sqlTextOf (joinStr (str ", ") wReq3.fields) wReq3.model
         (specWhere (prepareSearchTerms wReq3.queryText).length)
         (orderClauseOf (2 * (prepareSearchTerms wReq3.queryText).length + 1))
         (2 * (prepareSearchTerms wReq3.queryText).length + 3)) ∧
    ∀ i j (hi : i < wRows.length) (hj : j < wRows.length), i < j →
      rankRow wReq3.queryText wRows[i] ≤ rankRow wReq3.queryText wRows[j] ∧
      (rankRow wReq3.queryText wRows[i] = rankRow wReq3.queryText wRows[j] →
        strLe (wRows[i]).name (wRows[j]).name = true) :=
  ranking_order wAllowed wReq3 (builtPlan wReq3) wRows (by rfl) (by decide)

/-- Claim C7 — at query construction the SELECT clause is exactly the
comma-join of the validated fields in the order the caller requested,
and an explicit field list is always present there (the variant
rejects an empty fields array), so no full-row projection is built. -/
theorem selectClause_fields (allowed : List (Str × List Str))
    (req : QueryRequest) (plan : QueryPlan)
    (h : buildPlan allowed req = .ok plan) :
    req.fields ≠ [] ∧
    ∃ rest, plan.sqlText =
      str "\n            SELECT " ++ joinStr (str ", ") req.fields ++
      str "\n              FROM " ++ req.model ++ rest := by
  rcases buildPlan_ok_inv allowed req plan h with ⟨_, hf, _, _, _, _, e⟩
  subst e
  refine ⟨hf, ⟨str "\n             WHERE " ++
    specWhere (prepareSearchTerms req.queryText).length ++
    str "\n          ORDER BY " ++
    orderClauseOf (2 * (prepareSearchTerms req.queryText).length + 1) ++
    str "\n             LIMIT $" ++
    natStr (2 * (prepareSearchTerms req.queryText).length + 3) ++
    str "\n        ", ?_⟩⟩
  simp [builtPlan, sqlTextOf, List.append_assoc]

/-- Witness for C7 at the concrete two-field request. -/
theorem selectClause_fields_witness :
    wReq1.fields ≠ [] ∧
    ∃ rest, (builtPlan wReq1).sqlText =
      str "\n            SELECT " ++ joinStr (str ", ") wReq1.fields ++
      str "\n              FROM " ++ wReq1.model ++ rest :=
  selectClause_fields wAllowed wReq1 (builtPlan wReq1) (by rfl)

/-- Claim C8 — the clamp maps every value outside 1..100 (including
the absent-field zero) to 10 and keeps in-range values unchanged, and
the clamped value is the last bound argument of the built statement
(the LIMIT parameter). -/
theorem limit_clamped (allowed : List (Str × List Str))
    (req : QueryRequest) (plan : QueryPlan) (n : Int)
    (h : buildPlan allowed req = .ok plan) :
    ((n ≤ 0 ∨ 100 < n) → clampMaxResults n = 10) ∧
    (1 ≤ n → n ≤ 100 → clampMaxResults n = n) ∧
    plan.args.getLast? = some (Arg.i (clampMaxResults req.maxResults)) := by
  rcases buildPlan_ok_inv allowed req plan h with ⟨_, _, _, _, _, _, e⟩
  subst e
  refine ⟨fun hn => ?_, fun h1 h2 => ?_, ?_⟩
  · simp only [clampMaxResults, if_pos hn]
  · simp only [clampMaxResults]
    rw [if_neg (by omega)]
  · simp only [builtPlan]
    have e2 : specTermArgs (prepareSearchTerms req.queryText) ++
        [Arg.s (str "%" ++ toLowerStr req.queryText ++ str "%"),
         Arg.s (str "%" ++ toLowerStr req.queryText ++ str "%"),
         Arg.i (clampMaxResults req.maxResults)] =
        (specTermArgs (prepareSearchTerms req.queryText) ++
         [Arg.s (str "%" ++ toLowerStr req.queryText ++ str "%"),
          Arg.s (str "%" ++ toLowerStr req.queryText ++ str "%")]) ++
        [Arg.i (clampMaxResults req.maxResults)] := by
      simp [List.append_assoc]
    rw [e2, List.getLast?_concat]

/-- Witness for C8: the concrete clamp values of the spec and the
bound LIMIT argument of the concrete plan (built with maxResults 0). -/
theorem limit_clamped_witness :
    clampMaxResults 0 = 10 ∧ clampMaxResults (-5) = 10 ∧
    clampMaxResults 101 = 10 ∧ clampMaxResults 1000 = 10 ∧
    clampMaxResults 50 = 50 ∧
    (builtPlan wReq1).args.getLast? =
      some (Arg.i (clampMaxResults wReq1.maxResults)) := by
  have h0 := limit_clamped wAllowed wReq1 (builtPlan wReq1) 0 (by rfl)
  have h5 := limit_clamped wAllowed wReq1 (builtPlan wReq1) (-5) (by rfl)
  have h101 := limit_clamped wAllowed wReq1 (builtPlan wReq1) 101 (by rfl)
  have h1000 := limit_clamped wAllowed wReq1 (builtPlan wReq1) 1000 (by rfl)
  have h50 := limit_clamped wAllowed wReq1 (builtPlan wReq1) 50 (by rfl)
  exact ⟨h0.1 (by decide), h5.1 (by decide), h101.1 (by decide),
    h1000.1 (by decide), h50.2.1 (by decide) (by decide), h0.2.2⟩

/-- The concrete plan the simple variant builds for `wReq1`. -/
def wPlanV1 : QueryPlan :=
  ⟨str "SELECT * FROM items WHERE name ILIKE '%' || $1 || '%' OR price ILIKE '%' || $1 || '%' LIMIT $2",
   [Arg.s (str "laptop stand"), Arg.i 10]⟩

/-- Claim C9 — when the storage oracle answers with rows, the ranking
variant responds 200 with the bare results array and the simple
variant responds 200 with the object carrying the results and their
count; zero rows is an ordinary success. -/
theorem success_response (allowed : List (Str × List Str))
    (reqA reqB : QueryRequest) (planA planB : QueryPlan)
    (rows : List Record)
    (hA : buildPlan allowed reqA = .ok planA)
    (hB : buildPlanV1 allowed reqB = .ok planB) :
    handleQuery allowed reqA (fun _ _ => DbResult.ok rows) =
      Response.okArray rows ∧
    handleQueryV1 allowed reqB (fun _ _ => DbResult.ok rows) =
      Response.okObject rows rows.length := by
  constructor
  · simp [handleQuery, hA]
  · simp [handleQueryV1, hB]

/-- Witness for C9: the zero-match case is a success in both variants,
with count 0 in the object body. -/
theorem success_response_witness :
    handleQuery wAllowed wReq1 (fun _ _ => DbResult.ok []) =
      Response.okArray [] ∧
    handleQueryV1 wAllowed wReq1 (fun _ _ => DbResult.ok []) =
      Response.okObject [] 0 :=
  success_response wAllowed wReq1 wReq1 (builtPlan wReq1) wPlanV1 []
    (by rfl) (by rfl)

/-- Claim C10 — with `t` search terms the built statement carries
exactly `2t+3` arguments, laid out as the per-term like patterns, the
exact pattern twice and the clamped limit last; the canonical text
references the placeholders `$1..$(2t)` in the WHERE clause, `$(2t+1)`
and `$(2t+2)` in the ORDER BY and `$(2t+3)` in the LIMIT; and the
`1=1` fallback branch of the WHERE construction is never taken. -/
theorem args_arity (allowed : List (Str × List Str)) (req : QueryRequest)
    (plan : QueryPlan) (h : buildPlan allowed req = .ok plan) :
    plan.args.length = 2 * (prepareSearchTerms req.queryText).length + 3 ∧
    plan.args = specTermArgs (prepareSearchTerms req.queryText) ++
      [Arg.s (str "%" ++ toLowerStr req.queryText ++ str "%"),
       Arg.s (str "%" ++ toLowerStr req.queryText ++ str "%"),
       Arg.i (clampMaxResults req.maxResults)] ∧
    (termClauses (prepareSearchTerms req.queryText) 1).1 ≠ [] ∧
    whereClauseOf (termClauses (prepareSearchTerms req.queryText) 1).1 =
      joinStr (str " AND ")
        (termClauses (prepareSearchTerms req.queryText) 1).1 ∧
    plan.sqlText = sqlTextOf (joinStr (str ", ") req.fields) req.model
      (specWhere (prepareSearchTerms req.queryText).length)
      (orderClauseOf (2 * (prepareSearchTerms req.queryText).length + 1))
      (2 * (prepareSearchTerms req.queryText).length + 3) := by
  rcases buildPlan_ok_inv allowed req plan h with ⟨_, _, _, _, _, _, e⟩
  subst e
  have hn : (prepareSearchTerms req.queryText).length ≠ 0 := by
    simpa [List.length_eq_zero] using prepareSearchTerms_nonempty req.queryText
  have hcl : (termClauses (prepareSearchTerms req.queryText) 1).1 ≠ [] := by
    rw [termClauses_eq (prepareSearchTerms req.queryText) 1]
    simp [List.map_eq_nil_iff, List.range_eq_nil, hn]
  refine ⟨?_, rfl, hcl, ?_, rfl⟩
  · simp only [builtPlan]
    simp [specTermArgs_length]
  · simp only [whereClauseOf, if_neg hcl]

/-- Witness for C10 at the concrete two-term request. -/
theorem args_arity_witness :
    (builtPlan wReq1).args.length =
      2 * (prepareSearchTerms wReq1.queryText).length + 3 ∧
    (builtPlan wReq1).args = specTermArgs (prepareSearchTerms wReq1.queryText) ++
      [Arg.s (str "%" ++ toLowerStr wReq1.queryText ++ str "%"),
       Arg.s (str "%" ++ toLowerStr wReq1.queryText ++ str "%"),
       Arg.i (clampMaxResults wReq1.maxResults)] ∧
    (termClauses (prepareSearchTerms wReq1.queryText) 1).1 ≠ [] ∧
    whereClauseOf (termClauses (prepareSearchTerms wReq1.queryText) 1).1 =
      joinStr (str " AND ")
        (termClauses (prepareSearchTerms wReq1.queryText) 1).1 ∧
    (builtPlan wReq1).sqlText =
      sqlTextOf (joinStr (str ", ") wReq1.fields) wReq1.model
        (specWhere (prepareSearchTerms wReq1.queryText).length)
        (orderClauseOf (2 * (prepareSearchTerms wReq1.queryText).length + 1))
        (2 * (prepareSearchTerms wReq1.queryText).length + 3) :=
  args_arity wAllowed wReq1 (builtPlan wReq1) (by rfl)
